import Mathlib

set_option maxHeartbeats 1000000

/-!
Shallow embedding of `src/minesweeper.py`: the `Sentence` knowledge
representation and the `MinesweeperAI` inference engine (its methods
`mark_mine`, `mark_safe`, `neighboring_cells`, `add_knowledge`,
`make_safe_move` and `make_random_move`), together with the
specification-side notions (ground-truth board, constraint soundness)
needed to state the verified properties.

Python sets of coordinate pairs become `Finset Cell`; the `knowledge`
list of `Sentence` objects becomes `List Sentence` (Python `__eq__` on
`Sentence` compares the cell set and the count, which is structural
equality here, so value semantics coincide: the code never aliases one
`Sentence` object at two list positions).  Python `int` becomes `Int`.
Loops that mutate `self` become folds threading the state; the two
loops of `add_knowledge` that iterate over a list by an internal index
while the list (or its elements) change are modelled index-by-index
with explicit fuel, matching CPython iterator semantics exactly
(`next()` reads the element at the current index of the current list).
-/

abbrev Cell : Type := Int × Int

/-- A fixed total order on cells, used to enumerate a Python set when the
code iterates over one.  Every property proved about such an iteration is
order-independent, so the particular enumeration order is irrelevant; a
concrete one is needed only to keep the definitions executable. -/
def cellLe (a b : Cell) : Prop :=
  a.1 < b.1 ∨ (a.1 = b.1 ∧ a.2 ≤ b.2)

instance : DecidableRel cellLe := fun a b => by unfold cellLe; infer_instance

instance : IsTotal Cell cellLe := ⟨by intro a b; unfold cellLe; omega⟩

instance : IsTrans Cell cellLe := ⟨by intro a b c; unfold cellLe; omega⟩

instance : IsAntisymm Cell cellLe := by
  constructor
  intro a b h1 h2
  have h3 : a.1 = b.1 ∧ a.2 = b.2 := by unfold cellLe at h1 h2; omega
  exact Prod.ext h3.1 h3.2

/-- Enumerate a finite set of cells in the fixed total order (insertion
sort of any underlying list; sortedness makes the choice of list
irrelevant). -/
def cellList (t : Finset Cell) : List Cell :=
  Quot.liftOn t.val (List.insertionSort cellLe) (fun l1 l2 h =>
    List.eq_of_perm_of_sorted
      ((List.perm_insertionSort cellLe l1).trans
        (h.trans (List.perm_insertionSort cellLe l2).symm))
      (List.sorted_insertionSort cellLe l1)
      (List.sorted_insertionSort cellLe l2))

theorem mem_cellList {t : Finset Cell} {c : Cell} : c ∈ cellList t ↔ c ∈ t := by
  rcases t with ⟨⟨l⟩, hl⟩
  show c ∈ List.insertionSort cellLe l ↔ _
  rw [(List.perm_insertionSort cellLe l).mem_iff]
  exact Iff.rfl

/-- `Sentence` (src/minesweeper.py lines 88-143): a set of board cells and a
count of how many of those cells are mines. -/
structure Sentence where
  cells : Finset Cell
  count : Int
deriving DecidableEq

namespace Sentence

/-- Lines 105-112: all member cells are mines when `len(self.cells) == self.count`. -/
def known_mines (S : Sentence) : Finset Cell :=
  if (S.cells.card : Int) = S.count then S.cells else ∅

/-- Lines 114-121: all member cells are safe when `self.count == 0`. -/
def known_safes (S : Sentence) : Finset Cell :=
  if S.count = 0 then S.cells else ∅

/-- Lines 123-133: if the cell is a member, remove it and decrement the count. -/
def mark_mine (S : Sentence) (c : Cell) : Sentence :=
  if c ∈ S.cells then ⟨S.cells.erase c, S.count - 1⟩ else S

/-- Lines 135-143: if the cell is a member, remove it; the count is unchanged. -/
def mark_safe (S : Sentence) (c : Cell) : Sentence :=
  if c ∈ S.cells then ⟨S.cells.erase c, S.count⟩ else S

end Sentence

/-- The mutable state of `MinesweeperAI` (src/minesweeper.py lines 146-165). -/
structure MinesweeperAI where
  height : Int
  width : Int
  moves_made : Finset Cell
  mines : Finset Cell
  safes : Finset Cell
  knowledge : List Sentence
deriving DecidableEq

namespace MinesweeperAI

/-- Lines 167-174: add the cell to `self.mines` and resolve it in every sentence. -/
def mark_mine (s : MinesweeperAI) (c : Cell) : MinesweeperAI :=
  { s with mines := insert c s.mines,
           knowledge := s.knowledge.map (fun S => S.mark_mine c) }

/-- Lines 176-183: add the cell to `self.safes` and resolve it in every sentence. -/
def mark_safe (s : MinesweeperAI) (c : Cell) : MinesweeperAI :=
  { s with safes := insert c s.safes,
           knowledge := s.knowledge.map (fun S => S.mark_safe c) }

end MinesweeperAI

/-- The 3x3 block of coordinates around `cell`, in the row-major order in
which the nested loops of `neighboring_cells` (lines 192-194) visit them. -/
def box (cell : Cell) : List Cell :=
  [(cell.1 - 1, cell.2 - 1), (cell.1 - 1, cell.2), (cell.1 - 1, cell.2 + 1),
   (cell.1, cell.2 - 1), (cell.1, cell.2), (cell.1, cell.2 + 1),
   (cell.1 + 1, cell.2 - 1), (cell.1 + 1, cell.2), (cell.1 + 1, cell.2 + 1)]

/-- The guard of lines 196-199: the candidate is in bounds and is not the
probed cell itself.  The fourth conjunct of the Python condition,
`(row,col) is not self.moves_made`, is an object-identity comparison
between a tuple and a set and is therefore always true; it contributes
nothing and is omitted. -/
def ncOk (s : MinesweeperAI) (cell rc : Cell) : Prop :=
  0 ≤ rc.2 ∧ rc.2 < s.width ∧ rc ≠ cell ∧ 0 ≤ rc.1 ∧ rc.1 < s.height

instance (s : MinesweeperAI) (cell rc : Cell) : Decidable (ncOk s cell rc) := by
  unfold ncOk
  infer_instance

/-- One iteration of the loop body of `neighboring_cells` (lines 196-206):
count known mines, skip known safes, otherwise collect the neighbor. -/
def ncStep (s : MinesweeperAI) (cell : Cell) (acc : Finset Cell × Int) (rc : Cell) :
    Finset Cell × Int :=
  if ncOk s cell rc then
    if rc ∈ s.mines then (acc.1, acc.2 + 1)
    else if rc ∈ s.safes then acc
    else (insert rc acc.1, acc.2)
  else acc

namespace MinesweeperAI

/-- Lines 185-207: returns the set of undetermined in-bounds neighbors of
`cell` together with the number of neighbors already known to be mines. -/
def neighboring_cells (s : MinesweeperAI) (cell : Cell) : Finset Cell × Int :=
  (box cell).foldl (ncStep s cell) (∅, 0)

/-- Lines 224-227 (steps 1 and 2 of `add_knowledge`): record the probed cell
in `moves_made` and `safes` (plain set insertion, not `mark_safe`). -/
def recordMove (s : MinesweeperAI) (cell : Cell) : MinesweeperAI :=
  { s with moves_made := insert cell s.moves_made, safes := insert cell s.safes }

/-- Lines 229-235: the new sentence built from the undetermined neighbors
and the observed count adjusted by the already-detected mines.  The code
calls `neighboring_cells` twice (lines 230-231) and takes one component
from each call; both calls are on the same unchanged state. -/
def obsSentence (s : MinesweeperAI) (cell : Cell) (count : Int) : Sentence :=
  ⟨(s.neighboring_cells cell).1, count - (s.neighboring_cells cell).2⟩

/-- Lines 236-238: append the new sentence unless an equal one is present. -/
def addObs (s : MinesweeperAI) (cell : Cell) (count : Int) : MinesweeperAI :=
  if obsSentence s cell count ∈ s.knowledge then s
  else { s with knowledge := s.knowledge ++ [obsSentence s cell count] }

/-- Second half of one iteration of the step-4 loop (lines 248-252): re-read
the (possibly just mutated) sentence at index `i` — in Python `sentence` is
a live reference into `self.knowledge`, so `sentence.known_mines()` on line
249 sees the effect of the safe-marking just performed — and mark all its
currently known mines. -/
def extractMinesAt (s : MinesweeperAI) (i : ℕ) : MinesweeperAI :=
  match s.knowledge.get? i with
  | none => s
  | some sent1 => (cellList sent1.known_mines).foldl MinesweeperAI.mark_mine s

/-- Body of one iteration of the step-4 loop (lines 242-252) at list index
`i`: read the sentence, mark all its currently known safes, then mark the
known mines of the mutated sentence at the same index.
`known_safes`/`known_mines` return fresh sets in Python, so each marking
loop's iteration domain is fixed before the marking begins. -/
def extractAt (s : MinesweeperAI) (i : ℕ) : MinesweeperAI :=
  match s.knowledge.get? i with
  | none => s
  | some sent =>
    extractMinesAt ((cellList sent.known_safes).foldl MinesweeperAI.mark_safe s) i

/-- The step-4 loop (lines 242-252): `for sentence in self.knowledge`.
Marking mutates list elements in place but never changes the list length,
so the Python iterator visits exactly the indices `0, 1, ...` of the
original length; the fuel equals that length. -/
def step4Go : ℕ → ℕ → MinesweeperAI → MinesweeperAI
  | 0, _, s => s
  | fuel + 1, i, s =>
    if i < s.knowledge.length then step4Go fuel (i + 1) (extractAt s i) else s

def step4 (s : MinesweeperAI) : MinesweeperAI :=
  step4Go s.knowledge.length 0 s

end MinesweeperAI

/-- `list.remove(x)` of Python: delete the first element equal to `x`. -/
def removeFirst : List Sentence → Sentence → List Sentence
  | [], _ => []
  | x :: xs, a => if x = a then xs else x :: removeFirst xs a

/-- `set.pop()` on a one-element set returns its unique element. -/
def popOne (t : Finset Cell) : Cell :=
  (cellList t).headI

namespace MinesweeperAI

/-- Lines 284-300: the subset test and its consequences for one ordered
pair, after `subset`, `bigset` and `diff_count` have been assigned.  A
one-cell difference with matching count marks the cell; otherwise the
difference sentence is appended unconditionally (no duplicate check). -/
def resolveDiff (diff : Finset Cell) (diffc : Int) (s : MinesweeperAI) : MinesweeperAI :=
  if diff.card = 1 then
    if diffc = 0 then s.mark_safe (popOne diff)
    else if diffc = 1 then s.mark_mine (popOne diff)
    else s
  else { s with knowledge := s.knowledge ++ [⟨diff, diffc⟩] }

def resolve (sub big : Finset Cell) (diffc : Int) (s : MinesweeperAI) : MinesweeperAI :=
  if sub ⊆ big then resolveDiff (big \ sub) diffc s else s

/-- Lines 263-300: body of the inner loop of step 5 for the snapshot pair
`(s1, s2)`.  The branch cascade of lines 265-282 decides which cell set is
the candidate subset; equal sizes and empty sets are skipped. -/
def pairStep (s1 s2 : Sentence) (s : MinesweeperAI) : MinesweeperAI :=
  if s2.cells.card < s1.cells.card ∧ s1.cells.card ≠ 0 ∧ s2.cells.card ≠ 0 then
    resolve s2.cells s1.cells (s1.count - s2.count) s
  else if s2.cells.card = s1.cells.card then s
  else if s1.cells.card < s2.cells.card ∧ s1.cells.card ≠ 0 ∧ s2.cells.card ≠ 0 then
    resolve s1.cells s2.cells (s2.count - s1.count) s
  else s

/-- The inner loop `for sentence2 in known_sentences` (line 263) over the
already-shrunk snapshot; the snapshot is not modified during this loop
(marks and appends act on the live knowledge base only). -/
def innerLoop (s1 : Sentence) (ks : List Sentence) (s : MinesweeperAI) : MinesweeperAI :=
  ks.foldl (fun st s2 => pairStep s1 s2 st) s

/-- The outer loop of step 5 (lines 259-300): `for sentence1 in
known_sentences` with `known_sentences.remove(sentence1)` executed inside
the body.  CPython's list iterator reads the element at its running index
of the *current* list, so removal makes the loop skip every other
position; this is modelled exactly: read index `i`, remove the first
equal element, run the inner loop on the shrunk list, continue at
`i + 1`.  Each iteration shortens the list by one and advances the index,
so the initial length is sufficient fuel. -/
def step5Go : ℕ → ℕ → List Sentence → MinesweeperAI → MinesweeperAI
  | 0, _, _, s => s
  | fuel + 1, i, ks, s =>
    match ks.get? i with
    | none => s
    | some s1 =>
      step5Go fuel (i + 1) (removeFirst ks s1) (innerLoop s1 (removeFirst ks s1) s)

/-- Lines 255-300: step 5 runs on a deep copy of the current knowledge
(value snapshot here), while marks and appends hit the live state. -/
def step5 (s : MinesweeperAI) : MinesweeperAI :=
  step5Go s.knowledge.length 0 s.knowledge s

/-- Lines 209-301: the single public mutating entry point. -/
def add_knowledge (s : MinesweeperAI) (cell : Cell) (count : Int) : MinesweeperAI :=
  step5 (step4 (addObs (recordMove s cell) cell count))

/-- Lines 303-326: return the first known safe cell not yet played (set
iteration order modelled by `Finset.toList`) and record it in
`moves_made`; `none` when every safe cell was already played. -/
def make_safe_move (s : MinesweeperAI) : Option Cell × MinesweeperAI :=
  match (cellList s.safes).find? (fun m => decide (m ∉ s.moves_made)) with
  | some mv => (some mv, { s with moves_made := insert mv s.moves_made })
  | none => (none, s)

/-- Lines 329-354: enumerate the board row-major, keep the cells that are
neither known mines nor already played, and pick one of them (the random
choice is modelled by an arbitrary index `k` into the candidate list);
record the choice in `moves_made`.  `none` when no candidate remains. -/
def potentialMoves (s : MinesweeperAI) : List Cell :=
  ((List.range s.height.toNat).flatMap
      (fun r => (List.range s.width.toNat).map (fun c => ((r : Int), (c : Int))))).filter
    (fun pc => decide (pc ∉ s.mines ∧ pc ∉ s.moves_made))

/-- `random.choice(potential_move)` (line 350) modelled by an arbitrary
index `k` reduced modulo the candidate count. -/
def randomChoice (s : MinesweeperAI) (k : ℕ) : Cell :=
  (potentialMoves s).getD (k % (potentialMoves s).length) (0, 0)

def make_random_move (s : MinesweeperAI) (k : ℕ) : Option Cell × MinesweeperAI :=
  if (potentialMoves s).length = 0 then (none, s)
  else (some (randomChoice s k),
        { s with moves_made := insert (randomChoice s k) s.moves_made })

end MinesweeperAI

/-!
Specification-side definitions: the ground-truth board, the set of
in-bounds neighbors of a cell, the true neighbor-mine count, soundness of
a sentence with respect to the board, and the knowledge-base invariant
relating the engine state to the board.
-/

/-- The in-bounds grid-adjacent neighbors of `cell` (excluding `cell`). -/
def inBoundsNeighbors (s : MinesweeperAI) (cell : Cell) : Finset Cell :=
  (box cell).toFinset.filter (fun rc => ncOk s cell rc)

/-- Number of true mines of `board` among a finite set of cells. -/
def mcount (board : Cell → Bool) (t : Finset Cell) : ℕ :=
  (t.filter (fun c => board c = true)).card

/-- The true number of mines among the in-bounds neighbors of `cell`:
what the grid oracle reports for a probed cell. -/
def trueCount (board : Cell → Bool) (s : MinesweeperAI) (cell : Cell) : ℕ :=
  mcount board (inBoundsNeighbors s cell)

/-- A sentence is sound for `board` when exactly `count` of its cells are
mines of `board`. -/
abbrev soundS (board : Cell → Bool) (S : Sentence) : Prop :=
  S.count = (mcount board S.cells : Int)

/-- Knowledge-base soundness invariant: every held sentence is sound, every
cell in `mines` is a true mine, every cell in `safes` is truly mine-free. -/
abbrev KBInv (board : Cell → Bool) (s : MinesweeperAI) : Prop :=
  (∀ S ∈ s.knowledge, soundS board S) ∧
  (∀ c ∈ s.mines, board c = true) ∧
  (∀ c ∈ s.safes, board c = false)

/-- Every held sentence has a count between `0` and its cell-set size. -/
abbrev sentencesInRange (s : MinesweeperAI) : Prop :=
  ∀ S ∈ s.knowledge, 0 ≤ S.count ∧ S.count ≤ (S.cells.card : Int)

/-!
Monotone-growth infrastructure: every internal operation of
`add_knowledge` after the initial recording keeps `moves_made` unchanged
and only ever inserts into `mines` and `safes`.
-/

/-- `t` extends `s`: same played moves, at least the same mines and safes. -/
def Grows (s t : MinesweeperAI) : Prop :=
  t.moves_made = s.moves_made ∧ s.mines ⊆ t.mines ∧ s.safes ⊆ t.safes

theorem grows_refl (s : MinesweeperAI) : Grows s s :=
  ⟨rfl, Finset.Subset.refl _, Finset.Subset.refl _⟩

theorem grows_trans {s t u : MinesweeperAI} (h1 : Grows s t) (h2 : Grows t u) :
    Grows s u :=
  ⟨h2.1.trans h1.1, h1.2.1.trans h2.2.1, h1.2.2.trans h2.2.2⟩

theorem grows_mark_safe (s : MinesweeperAI) (c : Cell) : Grows s (s.mark_safe c) :=
  ⟨rfl, Finset.Subset.refl _, Finset.subset_insert _ _⟩

theorem grows_mark_mine (s : MinesweeperAI) (c : Cell) : Grows s (s.mark_mine c) :=
  ⟨rfl, Finset.subset_insert _ _, Finset.Subset.refl _⟩

theorem grows_foldl {α : Type} (f : MinesweeperAI → α → MinesweeperAI)
    (hf : ∀ s a, Grows s (f s a)) : ∀ (l : List α) (s : MinesweeperAI), Grows s (l.foldl f s)
  | [], s => grows_refl s
  | a :: l, s => grows_trans (hf s a) (grows_foldl f hf l (f s a))

theorem grows_extractMinesAt (s : MinesweeperAI) (i : ℕ) :
    Grows s (MinesweeperAI.extractMinesAt s i) := by
  unfold MinesweeperAI.extractMinesAt
  split
  · exact grows_refl s
  · exact grows_foldl _ grows_mark_mine _ s

theorem grows_extractAt (s : MinesweeperAI) (i : ℕ) :
    Grows s (MinesweeperAI.extractAt s i) := by
  unfold MinesweeperAI.extractAt
  split
  · exact grows_refl s
  · exact grows_trans (grows_foldl _ grows_mark_safe _ s) (grows_extractMinesAt _ i)

theorem grows_step4Go : ∀ (fuel i : ℕ) (s : MinesweeperAI),
    Grows s (MinesweeperAI.step4Go fuel i s)
  | 0, _, s => grows_refl s
  | fuel + 1, i, s => by
    unfold MinesweeperAI.step4Go
    split
    · exact grows_trans (grows_extractAt s i) (grows_step4Go fuel (i + 1) _)
    · exact grows_refl s

theorem grows_step4 (s : MinesweeperAI) : Grows s (MinesweeperAI.step4 s) :=
  grows_step4Go _ _ s

theorem grows_resolveDiff (diff : Finset Cell) (diffc : Int) (s : MinesweeperAI) :
    Grows s (MinesweeperAI.resolveDiff diff diffc s) := by
  unfold MinesweeperAI.resolveDiff
  split
  · split
    · exact grows_mark_safe _ _
    · split
      · exact grows_mark_mine _ _
      · exact grows_refl s
  · exact ⟨rfl, Finset.Subset.refl _, Finset.Subset.refl _⟩

theorem grows_resolve (sub big : Finset Cell) (diffc : Int) (s : MinesweeperAI) :
    Grows s (MinesweeperAI.resolve sub big diffc s) := by
  unfold MinesweeperAI.resolve
  split
  · exact grows_resolveDiff _ _ s
  · exact grows_refl s

theorem grows_pairStep (s1 s2 : Sentence) (s : MinesweeperAI) :
    Grows s (MinesweeperAI.pairStep s1 s2 s) := by
  unfold MinesweeperAI.pairStep
  split
  · exact grows_resolve _ _ _ s
  · split
    · exact grows_refl s
    · split
      · exact grows_resolve _ _ _ s
      · exact grows_refl s

theorem grows_innerLoop (s1 : Sentence) (ks : List Sentence) (s : MinesweeperAI) :
    Grows s (MinesweeperAI.innerLoop s1 ks s) :=
  grows_foldl _ (fun st s2 => grows_pairStep s1 s2 st) ks s

theorem grows_step5Go : ∀ (fuel i : ℕ) (ks : List Sentence) (s : MinesweeperAI),
    Grows s (MinesweeperAI.step5Go fuel i ks s)
  | 0, _, _, s => grows_refl s
  | fuel + 1, i, ks, s => by
    unfold MinesweeperAI.step5Go
    split
    · exact grows_refl s
    · exact grows_trans (grows_innerLoop _ _ s) (grows_step5Go fuel (i + 1) _ _)

theorem grows_step5 (s : MinesweeperAI) : Grows s (MinesweeperAI.step5 s) :=
  grows_step5Go _ _ _ s

theorem grows_addObs (s : MinesweeperAI) (cell : Cell) (count : Int) :
    Grows s (MinesweeperAI.addObs s cell count) := by
  unfold MinesweeperAI.addObs
  split
  · exact grows_refl s
  · exact ⟨rfl, Finset.Subset.refl _, Finset.Subset.refl _⟩

theorem grows_after_record (s : MinesweeperAI) (cell : Cell) (count : Int) :
    Grows (s.recordMove cell) (s.add_knowledge cell count) :=
  grows_trans (grows_addObs _ cell count)
    (grows_trans (grows_step4 _) (grows_step5 _))

theorem add_knowledge_moves_made (s : MinesweeperAI) (cell : Cell) (count : Int) :
    (s.add_knowledge cell count).moves_made = insert cell s.moves_made :=
  (grows_after_record s cell count).1

/-- C7: across an `add_knowledge` call, the known-mine and known-safe sets
only grow: every cell present before the call is still present after it. -/
theorem c7_mines_safes_monotone (s : MinesweeperAI) (cell : Cell) (count : Int) :
    s.mines ⊆ (s.add_knowledge cell count).mines ∧
    s.safes ⊆ (s.add_knowledge cell count).safes := by
  have h := grows_after_record s cell count
  exact ⟨h.2.1, (Finset.subset_insert cell s.safes).trans h.2.2⟩

/-- C9: the set of played moves grows monotonically under every public
operation: `add_knowledge`, `make_safe_move` and `make_random_move` only
ever insert into `moves_made`, never remove. -/
theorem c9_moves_made_monotone (s : MinesweeperAI) (cell : Cell) (count : Int) (k : ℕ) :
    s.moves_made ⊆ (s.add_knowledge cell count).moves_made ∧
    s.moves_made ⊆ (s.make_safe_move).2.moves_made ∧
    s.moves_made ⊆ (s.make_random_move k).2.moves_made := by
  refine ⟨?_, ?_, ?_⟩
  · rw [add_knowledge_moves_made]
    exact Finset.subset_insert _ _
  · unfold MinesweeperAI.make_safe_move
    split
    · exact Finset.subset_insert _ _
    · exact Finset.Subset.refl _
  · unfold MinesweeperAI.make_random_move
    split
    · exact Finset.Subset.refl _
    · exact Finset.subset_insert _ _

/-- C8: neither move selector ever returns a cell that is already in
`moves_made` at the time of the call. -/
theorem c8_no_double_move (s : MinesweeperAI) :
    (∀ c : Cell, (s.make_safe_move).1 = some c → c ∉ s.moves_made) ∧
    (∀ (k : ℕ) (c : Cell), (s.make_random_move k).1 = some c → c ∉ s.moves_made) := by
  constructor
  · intro c hc
    unfold MinesweeperAI.make_safe_move at hc
    rcases hfind : (cellList s.safes).find? (fun m => decide (m ∉ s.moves_made)) with _ | mv
    · rw [hfind] at hc
      simp at hc
    · rw [hfind] at hc
      simp only [Option.some.injEq] at hc
      subst hc
      simpa using List.find?_some hfind
  · intro k c hc
    unfold MinesweeperAI.make_random_move at hc
    by_cases h0 : (MinesweeperAI.potentialMoves s).length = 0
    · simp [h0] at hc
    · simp only [h0, if_false, Option.some.injEq] at hc
      subst hc
      have hlt : k % (MinesweeperAI.potentialMoves s).length <
          (MinesweeperAI.potentialMoves s).length :=
        Nat.mod_lt _ (Nat.pos_of_ne_zero h0)
      have hmem : MinesweeperAI.randomChoice s k ∈ MinesweeperAI.potentialMoves s := by
        unfold MinesweeperAI.randomChoice
        rw [List.getD_eq_getElem _ _ hlt]
        exact List.getElem_mem hlt
      have := (List.mem_filter.mp hmem).2
      simp only [decide_eq_true_eq] at this
      exact this.2

/-!
Characterization of `neighboring_cells`: its first component is the set of
in-bounds neighbors that are neither known mines nor known safes, and its
second component is the number of in-bounds neighbors that are known mines.
-/

theorem ncFold_fst (s : MinesweeperAI) (cell : Cell) (cand : List Cell) :
    ∀ (A : Finset Cell) (m : Int),
    (cand.foldl (ncStep s cell) (A, m)).1 =
      A ∪ (cand.filter
        (fun rc => decide (ncOk s cell rc ∧ rc ∉ s.mines ∧ rc ∉ s.safes))).toFinset := by
  induction cand with
  | nil => intro A m; simp
  | cons rc rest ih =>
    intro A m
    by_cases h1 : ncOk s cell rc
    · by_cases h2 : rc ∈ s.mines
      · simp [ncStep, h1, h2, ih]
      · by_cases h3 : rc ∈ s.safes
        · simp [ncStep, h1, h2, h3, ih]
        · simp [ncStep, h1, h2, h3, ih, Finset.insert_union, Finset.union_insert]
    · simp [ncStep, h1, ih]

theorem ncFold_snd (s : MinesweeperAI) (cell : Cell) (cand : List Cell) :
    ∀ (A : Finset Cell) (m : Int),
    (cand.foldl (ncStep s cell) (A, m)).2 =
      m + (cand.countP (fun rc => decide (ncOk s cell rc ∧ rc ∈ s.mines)) : Int) := by
  induction cand with
  | nil => intro A m; simp
  | cons rc rest ih =>
    intro A m
    by_cases h1 : ncOk s cell rc
    · by_cases h2 : rc ∈ s.mines
      · simp [ncStep, h1, h2, ih, List.countP_cons]
        ring
      · by_cases h3 : rc ∈ s.safes
        · simp [ncStep, h1, h2, h3, ih, List.countP_cons]
        · simp [ncStep, h1, h2, h3, ih, List.countP_cons]
    · simp [ncStep, h1, ih, List.countP_cons]

theorem box_nodup (cell : Cell) : (box cell).Nodup := by
  simp [box, Prod.ext_iff]
  omega

theorem nc_fst (s : MinesweeperAI) (cell : Cell) :
    (s.neighboring_cells cell).1 =
      (inBoundsNeighbors s cell).filter (fun rc => rc ∉ s.mines ∧ rc ∉ s.safes) := by
  unfold MinesweeperAI.neighboring_cells inBoundsNeighbors
  rw [ncFold_fst, Finset.empty_union]
  ext rc
  simp only [List.mem_toFinset, List.mem_filter, Finset.mem_filter, decide_eq_true_eq]
  tauto

theorem nc_snd (s : MinesweeperAI) (cell : Cell) :
    (s.neighboring_cells cell).2 =
      (((inBoundsNeighbors s cell).filter (fun rc => rc ∈ s.mines)).card : Int) := by
  unfold MinesweeperAI.neighboring_cells inBoundsNeighbors
  rw [ncFold_snd, zero_add]
  congr 1
  rw [List.countP_eq_length_filter]
  rw [← List.toFinset_card_of_nodup ((box_nodup cell).filter _)]
  congr 1
  rw [List.toFinset_filter]
  rw [Finset.filter_filter]
  apply Finset.filter_congr
  intro rc _
  simp

theorem mem_inBoundsNeighbors (s : MinesweeperAI) (cell rc : Cell) :
    rc ∈ inBoundsNeighbors s cell ↔
      (rc ≠ cell ∧ cell.1 - 1 ≤ rc.1 ∧ rc.1 ≤ cell.1 + 1 ∧
       cell.2 - 1 ≤ rc.2 ∧ rc.2 ≤ cell.2 + 1 ∧
       0 ≤ rc.1 ∧ rc.1 < s.height ∧ 0 ≤ rc.2 ∧ rc.2 < s.width) := by
  unfold inBoundsNeighbors
  simp only [Finset.mem_filter, List.mem_toFinset]
  unfold ncOk
  simp [box, Prod.ext_iff]
  omega

theorem inBoundsNeighbors_recordMove (s : MinesweeperAI) (cell : Cell) :
    inBoundsNeighbors (s.recordMove cell) cell = inBoundsNeighbors s cell := rfl

/-- C5: the new sentence built by `add_knowledge(cell, count)` has as cell
set exactly the in-bounds grid-adjacent neighbors of `cell` (excluding
`cell` itself) that are neither known mines nor known safes, and as count
the observed count minus the number of in-bounds neighbors that are known
mines; the last conjunct spells out what `inBoundsNeighbors` contains. -/
theorem c5_new_sentence_shape (s : MinesweeperAI) (cell : Cell) (count : Int) :
    ((s.recordMove cell).obsSentence cell count).cells =
      (inBoundsNeighbors s cell).filter (fun rc => rc ∉ s.mines ∧ rc ∉ s.safes) ∧
    ((s.recordMove cell).obsSentence cell count).count =
      count - (((inBoundsNeighbors s cell).filter (fun rc => rc ∈ s.mines)).card : Int) ∧
    ∀ rc : Cell, rc ∈ inBoundsNeighbors s cell ↔
      (rc ≠ cell ∧ cell.1 - 1 ≤ rc.1 ∧ rc.1 ≤ cell.1 + 1 ∧
       cell.2 - 1 ≤ rc.2 ∧ rc.2 ≤ cell.2 + 1 ∧
       0 ≤ rc.1 ∧ rc.1 < s.height ∧ 0 ≤ rc.2 ∧ rc.2 < s.width) := by
  refine ⟨?_, ?_, fun rc => mem_inBoundsNeighbors s cell rc⟩
  · show ((s.recordMove cell).neighboring_cells cell).1 = _
    rw [nc_fst, inBoundsNeighbors_recordMove]
    apply Finset.filter_congr
    intro rc hrc
    have hne : rc ≠ cell := ((mem_inBoundsNeighbors s cell rc).mp hrc).1
    show (rc ∉ (s.recordMove cell).mines ∧ rc ∉ (s.recordMove cell).safes) ↔ _
    simp [MinesweeperAI.recordMove, hne]
  · show count - ((s.recordMove cell).neighboring_cells cell).2 = _
    rw [nc_snd, inBoundsNeighbors_recordMove]
    rfl

/-- C10: `neighboring_cells` is a pure read.  Its result depends only on
the `height`, `width`, `mines` and `safes` fields (not on `moves_made` or
`knowledge`, despite the vacuous identity test on line 199), so two calls
on the same state return equal pairs, and the sentence `add_knowledge`
builds from its two calls equals the one built from a single call's pair. -/
theorem c10_neighboring_cells_pure :
    (∀ (s t : MinesweeperAI) (cell : Cell), s.height = t.height → s.width = t.width →
      s.mines = t.mines → s.safes = t.safes →
      s.neighboring_cells cell = t.neighboring_cells cell) ∧
    (∀ (s : MinesweeperAI) (cell : Cell) (count : Int),
      s.obsSentence cell count =
        ⟨(s.neighboring_cells cell).1, count - (s.neighboring_cells cell).2⟩) := by
  constructor
  · intro s t cell hh hw hm hs
    obtain ⟨h1, w1, mm1, mi1, sa1, kn1⟩ := s
    obtain ⟨h2, w2, mm2, mi2, sa2, kn2⟩ := t
    simp only at hh hw hm hs
    subst hh
    subst hw
    subst hm
    subst hs
    rfl
  · intro s cell count
    rfl

/-- Witness for C10: two states that differ in `moves_made` and `knowledge`
but agree on the read fields give equal `neighboring_cells` results. -/
theorem c10_neighboring_cells_pure_witness :
    (⟨2, 2, ∅, ∅, ∅, []⟩ : MinesweeperAI).neighboring_cells (0, 0) =
      (⟨2, 2, {(0, 0)}, ∅, ∅, [⟨∅, 0⟩]⟩ : MinesweeperAI).neighboring_cells (0, 0) :=
  c10_neighboring_cells_pure.1 ⟨2, 2, ∅, ∅, ∅, []⟩ ⟨2, 2, {(0, 0)}, ∅, ∅, [⟨∅, 0⟩]⟩
    (0, 0) rfl rfl rfl rfl

/-!
Soundness track for C2: with a ground-truth board in scope, every
operation of `add_knowledge` preserves the knowledge-base invariant
`KBInv`, and a sound sentence has its count between `0` and its size.
-/

theorem soundS_range (board : Cell → Bool) (S : Sentence) (h : soundS board S) :
    0 ≤ S.count ∧ S.count ≤ (S.cells.card : Int) := by
  rw [h]
  constructor
  · exact_mod_cast Nat.zero_le _
  · exact_mod_cast Finset.card_filter_le S.cells _

theorem known_safes_not_mine (board : Cell → Bool) (S : Sentence) (h : soundS board S)
    {c : Cell} (hc : c ∈ S.known_safes) : board c = false := by
  unfold Sentence.known_safes at hc
  split at hc
  · next h0 =>
    have h' : S.count = ((S.cells.filter (fun x => board x = true)).card : Int) := h
    rw [h0] at h'
    have hcard : (S.cells.filter (fun x => board x = true)).card = 0 := by omega
    have hemp := Finset.card_eq_zero.mp hcard
    by_contra hb
    have hb' : board c = true := by
      cases hbc : board c
      · exact absurd hbc hb
      · rfl
    have : c ∈ S.cells.filter (fun x => board x = true) := Finset.mem_filter.mpr ⟨hc, hb'⟩
    rw [hemp] at this
    exact absurd this (Finset.not_mem_empty c)
  · exact absurd hc (Finset.not_mem_empty c)

theorem known_mines_is_mine (board : Cell → Bool) (S : Sentence) (h : soundS board S)
    {c : Cell} (hc : c ∈ S.known_mines) : board c = true := by
  unfold Sentence.known_mines at hc
  split at hc
  · next h0 =>
    have h' : S.count = ((S.cells.filter (fun x => board x = true)).card : Int) := h
    rw [← h0] at h'
    have hcard : S.cells.card ≤ (S.cells.filter (fun x => board x = true)).card := by omega
    have heq : S.cells.filter (fun x => board x = true) = S.cells :=
      Finset.eq_of_subset_of_card_le (Finset.filter_subset _ _) hcard
    rw [← heq] at hc
    exact (Finset.mem_filter.mp hc).2
  · exact absurd hc (Finset.not_mem_empty c)

theorem sound_mark_safe (board : Cell → Bool) (S : Sentence) (c : Cell)
    (hb : board c = false) (h : soundS board S) : soundS board (S.mark_safe c) := by
  unfold Sentence.mark_safe
  split
  · show S.count = (mcount board (S.cells.erase c) : Int)
    have hnot : c ∉ S.cells.filter (fun x => board x = true) := by
      intro hmem
      rw [(Finset.mem_filter.mp hmem).2] at hb
      exact absurd hb (by simp)
    unfold mcount
    rw [Finset.filter_erase, Finset.erase_eq_of_not_mem hnot]
    exact h
  · exact h

theorem sound_mark_mine (board : Cell → Bool) (S : Sentence) (c : Cell)
    (hb : board c = true) (h : soundS board S) : soundS board (S.mark_mine c) := by
  unfold Sentence.mark_mine
  split
  · next hc =>
    show S.count - 1 = (mcount board (S.cells.erase c) : Int)
    have hcf : c ∈ S.cells.filter (fun x => board x = true) :=
      Finset.mem_filter.mpr ⟨hc, hb⟩
    have hpos : 1 ≤ (S.cells.filter (fun x => board x = true)).card :=
      Finset.card_pos.mpr ⟨c, hcf⟩
    unfold mcount
    rw [Finset.filter_erase, Finset.card_erase_of_mem hcf]
    unfold soundS mcount at h
    omega
  · exact h

theorem kbinv_mark_safe (board : Cell → Bool) (s : MinesweeperAI) (c : Cell)
    (hb : board c = false) (h : KBInv board s) : KBInv board (s.mark_safe c) := by
  obtain ⟨h1, h2, h3⟩ := h
  refine ⟨?_, h2, ?_⟩
  · intro S hS
    rcases List.mem_map.mp hS with ⟨S0, hS0, rfl⟩
    exact sound_mark_safe board S0 c hb (h1 S0 hS0)
  · intro x hx
    rcases Finset.mem_insert.mp hx with rfl | hx'
    · exact hb
    · exact h3 x hx'

theorem kbinv_mark_mine (board : Cell → Bool) (s : MinesweeperAI) (c : Cell)
    (hb : board c = true) (h : KBInv board s) : KBInv board (s.mark_mine c) := by
  obtain ⟨h1, h2, h3⟩ := h
  refine ⟨?_, ?_, h3⟩
  · intro S hS
    rcases List.mem_map.mp hS with ⟨S0, hS0, rfl⟩
    exact sound_mark_mine board S0 c hb (h1 S0 hS0)
  · intro x hx
    rcases Finset.mem_insert.mp hx with rfl | hx'
    · exact hb
    · exact h2 x hx'

theorem kbinv_foldl_mark_safe (board : Cell → Bool) :
    ∀ (l : List Cell), (∀ c ∈ l, board c = false) → ∀ (s : MinesweeperAI),
      KBInv board s → KBInv board (l.foldl MinesweeperAI.mark_safe s)
  | [], _, _, h => h
  | c :: l, hl, s, h =>
    kbinv_foldl_mark_safe board l (fun x hx => hl x (List.mem_cons_of_mem c hx)) _
      (kbinv_mark_safe board s c (hl c (List.mem_cons_self c l)) h)

theorem kbinv_foldl_mark_mine (board : Cell → Bool) :
    ∀ (l : List Cell), (∀ c ∈ l, board c = true) → ∀ (s : MinesweeperAI),
      KBInv board s → KBInv board (l.foldl MinesweeperAI.mark_mine s)
  | [], _, _, h => h
  | c :: l, hl, s, h =>
    kbinv_foldl_mark_mine board l (fun x hx => hl x (List.mem_cons_of_mem c hx)) _
      (kbinv_mark_mine board s c (hl c (List.mem_cons_self c l)) h)

theorem kbinv_extractMinesAt (board : Cell → Bool) (s : MinesweeperAI) (i : ℕ)
    (h : KBInv board s) : KBInv board (MinesweeperAI.extractMinesAt s i) := by
  unfold MinesweeperAI.extractMinesAt
  split
  · exact h
  · next sent1 heq =>
    apply kbinv_foldl_mark_mine board _ ?_ _ h
    intro c hc
    have hmem : sent1 ∈ s.knowledge := List.get?_mem heq
    have hc' : c ∈ sent1.known_mines := by
      exact mem_cellList.mp hc
    exact known_mines_is_mine board sent1 (h.1 sent1 hmem) hc'

theorem kbinv_extractAt (board : Cell → Bool) (s : MinesweeperAI) (i : ℕ)
    (h : KBInv board s) : KBInv board (MinesweeperAI.extractAt s i) := by
  unfold MinesweeperAI.extractAt
  split
  · exact h
  · next sent heq =>
    apply kbinv_extractMinesAt
    apply kbinv_foldl_mark_safe board _ ?_ _ h
    intro c hc
    have hmem : sent ∈ s.knowledge := List.get?_mem heq
    have hc' : c ∈ sent.known_safes := by
      exact mem_cellList.mp hc
    exact known_safes_not_mine board sent (h.1 sent hmem) hc'

theorem kbinv_step4Go (board : Cell → Bool) : ∀ (fuel i : ℕ) (s : MinesweeperAI),
    KBInv board s → KBInv board (MinesweeperAI.step4Go fuel i s)
  | 0, _, _, h => h
  | fuel + 1, i, s, h => by
    unfold MinesweeperAI.step4Go
    split
    · exact kbinv_step4Go board fuel (i + 1) _ (kbinv_extractAt board s i h)
    · exact h

theorem kbinv_step4 (board : Cell → Bool) (s : MinesweeperAI) (h : KBInv board s) :
    KBInv board (MinesweeperAI.step4 s) :=
  kbinv_step4Go board _ _ s h

theorem mcount_mono (board : Cell → Bool) {t b : Finset Cell} (h : t ⊆ b) :
    mcount board t ≤ mcount board b :=
  Finset.card_le_card (Finset.filter_subset_filter _ h)

theorem mcount_sdiff (board : Cell → Bool) {t b : Finset Cell} (h : t ⊆ b) :
    mcount board (b \ t) = mcount board b - mcount board t := by
  unfold mcount
  have e : (b \ t).filter (fun x => board x = true) =
      b.filter (fun x => board x = true) \ t.filter (fun x => board x = true) := by
    ext x
    simp only [Finset.mem_filter, Finset.mem_sdiff]
    constructor
    · rintro ⟨⟨hb, ht⟩, hx⟩
      exact ⟨⟨hb, hx⟩, fun hcon => ht hcon.1⟩
    · rintro ⟨⟨hb, hx⟩, ht⟩
      exact ⟨⟨hb, fun hco => ht ⟨hco, hx⟩⟩, hx⟩
  rw [e, Finset.card_sdiff (Finset.filter_subset_filter _ h)]

theorem mcount_singleton (board : Cell → Bool) (x : Cell) :
    mcount board {x} = if board x = true then 1 else 0 := by
  unfold mcount
  rw [Finset.filter_singleton]
  split
  · simp
  · simp

theorem popOne_singleton (x : Cell) : popOne {x} = x := rfl

theorem kbinv_resolveDiff (board : Cell → Bool) (diff : Finset Cell) (diffc : Int)
    (s : MinesweeperAI) (hd : diffc = (mcount board diff : Int)) (h : KBInv board s) :
    KBInv board (MinesweeperAI.resolveDiff diff diffc s) := by
  unfold MinesweeperAI.resolveDiff
  split
  · next h1 =>
    obtain ⟨x, rfl⟩ := Finset.card_eq_one.mp h1
    rw [mcount_singleton] at hd
    split
    · next h0 =>
      rw [popOne_singleton]
      apply kbinv_mark_safe board s x ?_ h
      rw [h0] at hd
      by_contra hb
      have hb' : board x = true := by
        cases hbx : board x
        · exact absurd hbx hb
        · rfl
      rw [if_pos hb'] at hd
      omega
    · split
      · next h1' =>
        rw [popOne_singleton]
        apply kbinv_mark_mine board s x ?_ h
        rw [h1'] at hd
        cases hbx : board x
        · rw [if_neg (by simp [hbx])] at hd
          omega
        · rfl
      · exact h
  · obtain ⟨k1, k2, k3⟩ := h
    refine ⟨?_, k2, k3⟩
    intro S hS
    rcases List.mem_append.mp hS with h' | h'
    · exact k1 S h'
    · rw [List.mem_singleton] at h'
      subst h'
      exact hd

theorem kbinv_resolve (board : Cell → Bool) (sub big : Finset Cell) (diffc : Int)
    (s : MinesweeperAI) (hd : sub ⊆ big → diffc = (mcount board (big \ sub) : Int))
    (h : KBInv board s) : KBInv board (MinesweeperAI.resolve sub big diffc s) := by
  unfold MinesweeperAI.resolve
  split
  · next hs => exact kbinv_resolveDiff board _ _ s (hd hs) h
  · exact h

theorem kbinv_pairStep (board : Cell → Bool) (s1 s2 : Sentence) (st : MinesweeperAI)
    (hs1 : soundS board s1) (hs2 : soundS board s2) (h : KBInv board st) :
    KBInv board (MinesweeperAI.pairStep s1 s2 st) := by
  unfold MinesweeperAI.pairStep
  split
  · apply kbinv_resolve board _ _ _ _ ?_ h
    intro hsub
    rw [mcount_sdiff board hsub, hs1, hs2]
    have hm := mcount_mono board hsub
    omega
  · split
    · exact h
    · split
      · apply kbinv_resolve board _ _ _ _ ?_ h
        intro hsub
        rw [mcount_sdiff board hsub, hs1, hs2]
        have hm := mcount_mono board hsub
        omega
      · exact h

theorem kbinv_innerLoop (board : Cell → Bool) (s1 : Sentence) (hs1 : soundS board s1) :
    ∀ (ks : List Sentence) (st : MinesweeperAI), (∀ S ∈ ks, soundS board S) →
      KBInv board st → KBInv board (MinesweeperAI.innerLoop s1 ks st)
  | [], _, _, h => h
  | s2 :: ks, st, hks, h =>
    kbinv_innerLoop board s1 hs1 ks _
      (fun S hS => hks S (List.mem_cons_of_mem s2 hS))
      (kbinv_pairStep board s1 s2 st hs1 (hks s2 (List.mem_cons_self s2 ks)) h)

theorem removeFirst_mem {l : List Sentence} {x a : Sentence} :
    a ∈ removeFirst l x → a ∈ l := by
  induction l with
  | nil => intro hmem; exact absurd hmem (List.not_mem_nil a)
  | cons y ys ih =>
    intro hmem
    unfold removeFirst at hmem
    split at hmem
    · exact List.mem_cons_of_mem y hmem
    · rcases List.mem_cons.mp hmem with rfl | h'
      · exact List.mem_cons_self a ys
      · exact List.mem_cons_of_mem y (ih h')

theorem kbinv_step5Go (board : Cell → Bool) : ∀ (fuel i : ℕ) (ks : List Sentence)
    (s : MinesweeperAI), (∀ S ∈ ks, soundS board S) → KBInv board s →
    KBInv board (MinesweeperAI.step5Go fuel i ks s)
  | 0, _, _, _, _, h => h
  | fuel + 1, i, ks, s, hks, h => by
    unfold MinesweeperAI.step5Go
    split
    · exact h
    · next s1 heq =>
      apply kbinv_step5Go board fuel (i + 1) _ _ ?_ ?_
      · intro S hS
        exact hks S (removeFirst_mem hS)
      · exact kbinv_innerLoop board s1 (hks s1 (List.get?_mem heq)) _ s
          (fun S hS => hks S (removeFirst_mem hS)) h

theorem kbinv_step5 (board : Cell → Bool) (s : MinesweeperAI) (h : KBInv board s) :
    KBInv board (MinesweeperAI.step5 s) :=
  kbinv_step5Go board _ _ _ s h.1 h

theorem kbinv_recordMove (board : Cell → Bool) (s : MinesweeperAI) (cell : Cell)
    (hb : board cell = false) (h : KBInv board s) : KBInv board (s.recordMove cell) := by
  refine ⟨h.1, h.2.1, ?_⟩
  intro x hx
  rcases Finset.mem_insert.mp hx with rfl | hx'
  · exact hb
  · exact h.2.2 x hx'

theorem kbinv_addObs (board : Cell → Bool) (s : MinesweeperAI) (cell : Cell) (count : Int)
    (hobs : soundS board (s.obsSentence cell count)) (h : KBInv board s) :
    KBInv board (s.addObs cell count) := by
  unfold MinesweeperAI.addObs
  split
  · exact h
  · refine ⟨?_, h.2.1, h.2.2⟩
    intro S hS
    rcases List.mem_append.mp hS with h' | h'
    · exact h.1 S h'
    · rw [List.mem_singleton] at h'
      subst h'
      exact hobs

theorem obs_sound (board : Cell → Bool) (s : MinesweeperAI) (cell : Cell) (count : Int)
    (h : KBInv board s) (hcount : count = (trueCount board s cell : Int)) :
    soundS board (s.obsSentence cell count) := by
  show count - (s.neighboring_cells cell).2 = (mcount board (s.neighboring_cells cell).1 : Int)
  rw [nc_fst, nc_snd, hcount]
  have key : trueCount board s cell =
      ((inBoundsNeighbors s cell).filter (fun rc => rc ∈ s.mines)).card +
        mcount board
          ((inBoundsNeighbors s cell).filter (fun rc => rc ∉ s.mines ∧ rc ∉ s.safes)) := by
    unfold trueCount mcount
    have e1 : (inBoundsNeighbors s cell).filter (fun c => board c = true) =
        ((inBoundsNeighbors s cell).filter (fun rc => rc ∈ s.mines)) ∪
          (((inBoundsNeighbors s cell).filter
              (fun rc => rc ∉ s.mines ∧ rc ∉ s.safes)).filter (fun c => board c = true)) := by
      ext x
      simp only [Finset.mem_filter, Finset.mem_union]
      constructor
      · rintro ⟨hxN, hxb⟩
        by_cases hm : x ∈ s.mines
        · exact Or.inl ⟨hxN, hm⟩
        · refine Or.inr ⟨⟨hxN, hm, ?_⟩, hxb⟩
          intro hsf
          rw [h.2.2 x hsf] at hxb
          exact absurd hxb (by simp)
      · rintro (⟨hxN, hm⟩ | ⟨⟨hxN, _, _⟩, hxb⟩)
        · exact ⟨hxN, h.2.1 x hm⟩
        · exact ⟨hxN, hxb⟩
    rw [e1, Finset.card_union_of_disjoint]
    rw [Finset.disjoint_left]
    intro x hx1 hx2
    have hm1 := (Finset.mem_filter.mp hx1).2
    have hm2 := ((Finset.mem_filter.mp (Finset.mem_filter.mp hx2).1).2).1
    exact hm2 hm1
  rw [key]
  push_cast
  ring

/-- C2: starting from any state satisfying the soundness invariant for a
ground-truth board and ingesting a truthful observation for a mine-free
cell, the invariant is preserved and every sentence held afterwards has
`0 <= count <= |cells|`. -/
theorem c2_counts_in_range (board : Cell → Bool) (s : MinesweeperAI) (cell : Cell)
    (count : Int) (h : KBInv board s) (hb : board cell = false)
    (hcount : count = (trueCount board s cell : Int)) :
    KBInv board (s.add_knowledge cell count) ∧
      sentencesInRange (s.add_knowledge cell count) := by
  have h0 : KBInv board (s.recordMove cell) := kbinv_recordMove board s cell hb h
  have hc0 : count = (trueCount board (s.recordMove cell) cell : Int) := hcount
  have hobs := obs_sound board (s.recordMove cell) cell count h0 hc0
  have h1 := kbinv_addObs board (s.recordMove cell) cell count hobs h0
  have h2 := kbinv_step4 board _ h1
  have h3 := kbinv_step5 board _ h2
  exact ⟨h3, fun S hS => soundS_range board S (h3.1 S hS)⟩

/-- Witness for C2: the empty knowledge base on a mine-free board, probing
`(0,0)` with the true observation `0`. -/
theorem c2_counts_in_range_witness :
    KBInv (fun _ => false)
        ((⟨8, 8, ∅, ∅, ∅, []⟩ : MinesweeperAI).add_knowledge (0, 0) 0) ∧
      sentencesInRange ((⟨8, 8, ∅, ∅, ∅, []⟩ : MinesweeperAI).add_knowledge (0, 0) 0) :=
  c2_counts_in_range (fun _ => false) ⟨8, 8, ∅, ∅, ∅, []⟩ (0, 0) 0
    (by refine ⟨?_, ?_, ?_⟩ <;> simp)
    rfl
    (by decide)

/-!
Concrete states exhibiting the divergences between the code and the
claimed saturation, deduplication and precondition-checking behavior.
-/

/-- A knowledge base holding `{(1,0),(2,0),(2,1)} = 1` with `(0,1)` and
`(1,1)` already known safe, consistent with a board whose only mine is
`(1,0)`; probing `(0,0)` then truthfully reports one adjacent mine. -/
def sC1 : MinesweeperAI :=
  ⟨8, 8, ∅, ∅, {(0, 1), (1, 1)}, [⟨{(1, 0), (2, 0), (2, 1)}, 1⟩]⟩

/-- C1: the knowledge base is NOT saturated when `add_knowledge` returns:
after ingesting `(0,0)` with observed count `1`, the state still holds the
sentence `{(2,0),(2,1)} = 0` whose cells are not marked safe, and a single
further simple-fact pass (`step4`) marks `(2,0)` safe — so re-running the
extraction sweep does produce new facts, contradicting the fixpoint claim. -/
theorem c1_not_saturated :
    (Sentence.mk {(2, 0), (2, 1)} 0) ∈ (sC1.add_knowledge (0, 0) 1).knowledge ∧
    ((2 : Int), (0 : Int)) ∉ (sC1.add_knowledge (0, 0) 1).safes ∧
    ((2 : Int), (0 : Int)) ∈ (MinesweeperAI.step4 (sC1.add_knowledge (0, 0) 1)).safes := by
  decide

/-- A knowledge base holding `{(3,0),(3,1),(3,2),(3,3)} = 2`,
`{(3,0),(3,1)} = 1` and `{(3,2),(3,3)} = 1`. -/
def sC3 : MinesweeperAI :=
  ⟨8, 8, ∅, ∅, ∅,
   [⟨{(3, 0), (3, 1), (3, 2), (3, 3)}, 2⟩, ⟨{(3, 0), (3, 1)}, 1⟩, ⟨{(3, 2), (3, 3)}, 1⟩]⟩

/-- C3 counterexample: after a completed `add_knowledge` call the knowledge
collection holds the same sentence `{(3,2),(3,3)} = 1` at two distinct
positions — subset resolution appended the derived difference sentence even
though an equal sentence was already present (line 300 has no duplicate
check). -/
theorem c3_duplicates_retained :
    (sC3.add_knowledge (0, 0) 1).knowledge.get? 2 = some ⟨{(3, 2), (3, 3)}, 1⟩ ∧
    (sC3.add_knowledge (0, 0) 1).knowledge.get? 4 = some ⟨{(3, 2), (3, 3)}, 1⟩ := by
  decide

/-- C3 amended: only the observation sentence of step 3 is deduplicated
against the knowledge collection — it is appended exactly when no equal
sentence is present; derived difference sentences are appended without any
duplicate check, so duplicates can be retained (see the counterexample). -/
theorem c3_dedup_only_for_observation (s : MinesweeperAI) (cell : Cell) (count : Int) :
    (s.obsSentence cell count ∈ s.knowledge → s.addObs cell count = s) ∧
    (s.obsSentence cell count ∉ s.knowledge →
      (s.addObs cell count).knowledge = s.knowledge ++ [s.obsSentence cell count]) := by
  constructor
  · intro h
    unfold MinesweeperAI.addObs
    rw [if_pos h]
  · intro h
    unfold MinesweeperAI.addObs
    rw [if_neg h]

/-- Witness for the amended C3: a state already holding the observation
sentence `{(1,1),(1,0),(0,1)} = 1` is left unchanged by the step-3 append. -/
theorem c3_dedup_only_for_observation_witness :
    MinesweeperAI.addObs ⟨8, 8, ∅, ∅, ∅, [⟨{(1, 1), (1, 0), (0, 1)}, 1⟩]⟩ (0, 0) 1 =
      ⟨8, 8, ∅, ∅, ∅, [⟨{(1, 1), (1, 0), (0, 1)}, 1⟩]⟩ :=
  (c3_dedup_only_for_observation ⟨8, 8, ∅, ∅, ∅, [⟨{(1, 1), (1, 0), (0, 1)}, 1⟩]⟩
    (0, 0) 1).1 (by decide)

/-- A state in which `(0,0)` has already been probed. -/
def sC4 : MinesweeperAI := ⟨8, 8, {(0, 0)}, ∅, {(0, 0)}, []⟩

/-- C4 counterexample: calling `add_knowledge` on the already-probed cell
`(0,0)` does not fail — it silently updates the state, changing both the
sentence collection and the safe set. -/
theorem c4_silent_update :
    ((0 : Int), (0 : Int)) ∈ sC4.moves_made ∧
    (sC4.add_knowledge (0, 0) 0).knowledge ≠ sC4.knowledge ∧
    (sC4.add_knowledge (0, 0) 0).safes ≠ sC4.safes := by
  decide

/-- C4 amended: `add_knowledge` performs no precondition validation.  Even
when the cell was already probed or the adjusted count is negative, the
call completes normally and performs its usual updates: the cell is
(re-)inserted into `moves_made` and recorded safe. -/
theorem c4_no_precondition_check (s : MinesweeperAI) (cell : Cell) (count : Int)
    (_h : cell ∈ s.moves_made ∨
      count - ((s.recordMove cell).neighboring_cells cell).2 < 0) :
    (s.add_knowledge cell count).moves_made = insert cell s.moves_made ∧
    cell ∈ (s.add_knowledge cell count).safes :=
  ⟨add_knowledge_moves_made s cell count,
   (grows_after_record s cell count).2.2 (Finset.mem_insert_self cell s.safes)⟩

/-- Witness for the amended C4: re-ingesting the already-probed `(0,0)`. -/
theorem c4_no_precondition_check_witness :
    (sC4.add_knowledge (0, 0) 0).moves_made = insert ((0 : Int), (0 : Int)) sC4.moves_made ∧
    ((0 : Int), (0 : Int)) ∈ (sC4.add_knowledge (0, 0) 0).safes :=
  c4_no_precondition_check sC4 (0, 0) 0 (Or.inl (by decide))

/-- A knowledge base holding `{(3,0),(3,1),(3,2)} = 1` and
`{(3,0),(3,1)} = 1` (snapshot positions 2 and 4 after the observation
sentence is appended) plus two unrelated two-cell sentences. -/
def sC6 : MinesweeperAI :=
  ⟨8, 8, ∅, ∅, {(1, 1)},
   [⟨{(5, 0), (5, 1)}, 1⟩, ⟨{(3, 0), (3, 1), (3, 2)}, 1⟩,
    ⟨{(5, 3), (5, 4)}, 1⟩, ⟨{(3, 0), (3, 1)}, 1⟩]⟩

/-- C6: the state holds `{a,b,c} = 1` and `{a,b} = 1` for the distinct,
undetermined cells `a = (3,0)`, `b = (3,1)`, `c = (3,2)`, yet a completed
ingest call does not mark `c` safe: the outer loop of subset resolution
removes elements from the list it is iterating, so the pair sitting at
snapshot positions 2 and 4 is never examined. -/
theorem c6_subset_diff_missed :
    (Sentence.mk {(3, 0), (3, 1), (3, 2)} 1) ∈ sC6.knowledge ∧
    (Sentence.mk {(3, 0), (3, 1)} 1) ∈ sC6.knowledge ∧
    (((3 : Int), (0 : Int)) ∉ sC6.safes ∧ ((3 : Int), (0 : Int)) ∉ sC6.mines) ∧
    (((3 : Int), (1 : Int)) ∉ sC6.safes ∧ ((3 : Int), (1 : Int)) ∉ sC6.mines) ∧
    (((3 : Int), (2 : Int)) ∉ sC6.safes ∧ ((3 : Int), (2 : Int)) ∉ sC6.mines) ∧
    ((3 : Int), (2 : Int)) ∉ (sC6.add_knowledge (0, 0) 1).safes := by
  decide

/-- A small state on which both move selectors return a move. -/
def sC8 : MinesweeperAI := ⟨2, 2, {(0, 0)}, ∅, {(0, 1)}, []⟩

/-- Witness for C8: on `sC8` the safe selector returns `(0,1)` and the
random selector (with index 1) returns `(1,0)`; both are outside
`moves_made`. -/
theorem c8_no_double_move_witness :
    ((0 : Int), (1 : Int)) ∉ sC8.moves_made ∧
    ((1 : Int), (0 : Int)) ∉ sC8.moves_made :=
  ⟨(c8_no_double_move sC8).1 (0, 1) (by decide),
   (c8_no_double_move sC8).2 1 (1, 0) (by decide)⟩
